import Mathlib

/-!
Shallow embedding of the Substrate statement gossip handler
(`substrate/client/network/statement/src/lib.rs`) together with proofs about
its behaviour.

The handler state (`StatementHandler`) is modelled as a record of the fields
the gossip logic reads and writes: the per-peer table, the map from pending
statement hash to the set of announcing peers, the list of in-flight
verification futures (represented by their hashes), and the bounded
validation channel.  Externally-provided collaborators (the network service,
the sync oracle, the statement store, the codec) are modelled as parameters;
observable interactions with them (reputation reports, outbound
notifications, validation replies) are collected in an effect list.
-/

set_option autoImplicit false

namespace StatementGossip

/-- Statement hash (`sp_statement_store::Hash`), an opaque fixed-width id. -/
abbrev Hash := Nat

/-- Opaque transport-layer peer identifier (`sc_network_types::PeerId`). -/
abbrev PeerId := Nat

/-- A statement is an opaque content-addressed value; `hash` is the
deterministic content hash computed by the store (`s.hash()` in the source),
`payload` stands for the rest of the opaque bytes. -/
structure Statement where
  hash : Hash
  payload : Nat
deriving DecidableEq

/-- `sc_network_common::role::ObservedRole`. -/
inductive ObservedRole where
  | authority
  | full
  | light
deriving DecidableEq

/-- `sp_statement_store::NetworkPriority`. -/
inductive NetworkPriority where
  | high
  | low
deriving DecidableEq

/-- `sp_statement_store::SubmitResult`; the payloads of `Bad` and
`InternalError` are opaque to the handler and modelled as `Nat`. -/
inductive SubmitResult where
  | new (priority : NetworkPriority)
  | known
  | knownExpired
  | ignored
  | bad (reason : Nat)
  | internalError (reason : Nat)
deriving DecidableEq

/-- `sc_network::ReputationChange`: a signed delta plus a static reason. -/
structure ReputationChange where
  value : Int
  reason : String
deriving DecidableEq

namespace rep

/-- `Rep::new(-(1 << 4), "Any statement")`. -/
def ANY_STATEMENT : ReputationChange := ⟨-16, "Any statement"⟩

/-- `Rep::new(1 << 4, "Any statement (refund)")`. -/
def ANY_STATEMENT_REFUND : ReputationChange := ⟨16, "Any statement (refund)"⟩

/-- `Rep::new(1 << 7, "Good statement")`. -/
def GOOD_STATEMENT : ReputationChange := ⟨128, "Good statement"⟩

/-- `Rep::new(-(1 << 12), "Bad statement")`. -/
def BAD_STATEMENT : ReputationChange := ⟨-4096, "Bad statement"⟩

/-- `Rep::new(-(1 << 7), "Duplicate statement")`. -/
def DUPLICATE_STATEMENT : ReputationChange := ⟨-128, "Duplicate statement"⟩

/-- `Rep::new(1 << 8, "High priority statement")`. -/
def EXCELLENT_STATEMENT : ReputationChange := ⟨256, "High priority statement"⟩

end rep

/-- Modelled from the spec: `sc_network::utils::LruHashSet` is not among the
sources (only its call sites are).  Per the spec it is a "bounded LRU set of
Hash, capacity MAX_KNOWN_STATEMENTS.  Insertion returns whether the element
was newly added", and "LRU at capacity evicts the oldest entry".  `elems`
holds the elements oldest first. -/
structure LruHashSet where
  elems : List Hash
  limit : Nat
deriving DecidableEq

/-- `LruHashSet::new(limit)`. -/
def LruHashSet.new (limit : Nat) : LruHashSet := ⟨[], limit⟩

/-- Insert an element; returns whether it was newly added together with the
updated set.  A newly added element goes to the back; if the size then
exceeds the capacity, the oldest elements (at the front) are evicted. -/
def LruHashSet.insert (s : LruHashSet) (h : Hash) : Bool × LruHashSet :=
  if h ∈ s.elems then (false, s)
  else
    let l := s.elems ++ [h]
    if s.limit < l.length then (true, ⟨l.drop (l.length - s.limit), s.limit⟩)
    else (true, ⟨l, s.limit⟩)

/-- The bounded validation channel created by `async_channel::bounded(100_000)`
in `StatementHandlerPrototype::build`: the sender half is `queue_sender`, the
receiver is consumed by the worker task.  Only the sender side is relevant to
the handler; `queued` are the items buffered in the channel. -/
structure ValidationQueue where
  queued : List Statement
  capacity : Nat
  closed : Bool
deriving DecidableEq

/-- Capacity used by `build` (`async_channel::bounded(100_000)`). -/
def VALIDATION_QUEUE_CAPACITY : Nat := 100000

/-- Outcome of `async_channel::Sender::try_send`. -/
inductive TrySendResult where
  | ok (q : ValidationQueue)
  | full
  | closed
deriving DecidableEq

/-- `queue_sender.try_send(item)`: fails with `Closed` when the channel is
closed, with `Full` when the buffer is at capacity, otherwise buffers the
item. -/
def ValidationQueue.trySend (q : ValidationQueue) (s : Statement) : TrySendResult :=
  if q.closed then .closed
  else if q.capacity ≤ q.queued.length then .full
  else .ok ⟨q.queued ++ [s], q.capacity, q.closed⟩

/-- Modelled from the spec: the constants of `crate::config` are not among the
sources.  "Tunable constants ... Exact values are deployment-chosen; all must
be strictly positive", so the handler operations take them as parameters. -/
structure Config where
  maxPendingStatements : Nat
  maxKnownStatements : Nat
deriving DecidableEq

/-- First value bound to a key in an association list (`HashMap::get`). -/
def alistGet {α β : Type} [DecidableEq α] : List (α × β) → α → Option β
  | [], _ => none
  | (k, v) :: rest, a => if k = a then some v else alistGet rest a

/-- Bind a key to a value (`HashMap::insert` / `Entry::insert`): replaces the
first binding of the key if present, otherwise appends a new binding. -/
def alistInsert {α β : Type} [DecidableEq α] : List (α × β) → α → β → List (α × β)
  | [], a, b => [(a, b)]
  | (k, v) :: rest, a, b =>
    if k = a then (a, b) :: rest else (k, v) :: alistInsert rest a b

/-- Remove the first binding of a key (`HashMap::remove`). -/
def alistRemove {α β : Type} [DecidableEq α] : List (α × β) → α → List (α × β)
  | [], _ => []
  | (k, v) :: rest, a => if k = a then rest else (k, v) :: alistRemove rest a

/-- Apply a function to the value bound to a key (`HashMap::get_mut` followed
by in-place mutation). -/
def alistUpdate {α β : Type} [DecidableEq α] (f : β → β) :
    List (α × β) → α → List (α × β)
  | [], _ => []
  | (k, v) :: rest, a =>
    if k = a then (k, f v) :: rest else (k, v) :: alistUpdate f rest a

/-- `HashSet::insert` on a set of peers: returns whether the peer was newly
added together with the updated set. -/
def peerSetInsert (l : List PeerId) (p : PeerId) : Bool × List PeerId :=
  if p ∈ l then (false, l) else (true, l ++ [p])

/-- Per-peer record (`struct Peer` in the source). -/
structure Peer where
  known_statements : LruHashSet
  role : ObservedRole
deriving DecidableEq

/-- The mutable state of `StatementHandler` that the gossip logic touches.
`pending_statements` holds the hashes of the in-flight verification futures
(`FuturesUnordered`); `isMajorSyncing` is the sync oracle's current answer to
`is_major_syncing()`. -/
structure HandlerState where
  peers : List (PeerId × Peer)
  pending_statements : List Hash
  pending_statements_peers : List (Hash × List PeerId)
  queue : ValidationQueue
  isMajorSyncing : Bool
deriving DecidableEq

/-- `sc_network ValidationResult` for inbound substreams. -/
inductive ValidationResult where
  | accept
  | reject
deriving DecidableEq

/-- Observable interactions of the handler with its collaborators. -/
inductive Effect where
  | report (peer : PeerId) (change : ReputationChange)
  | sendNotificationTo (peer : PeerId) (toSend : List Statement)
  | replyValidation (result : ValidationResult)
  | logWarnInconsistentState
deriving DecidableEq

/-- Whether an effect is an outbound notification to the given peer. -/
def sendsTo (who : PeerId) (e : Effect) : Bool :=
  match e with
  | .sendNotificationTo w _ => w == who
  | _ => false

/-- `NotificationEvent` from the network service (the reply channel of
`ValidateInboundSubstream` is modelled by the `replyValidation` effect). -/
inductive NotificationEvent where
  | validateInboundSubstream (peer : PeerId) (handshake : List Nat)
  | notificationStreamOpened (peer : PeerId) (handshake : List Nat)
  | notificationStreamClosed (peer : PeerId)
  | notificationReceived (peer : PeerId) (notification : List Nat)

/-- `StatementHandler::on_handle_statement_import`: the reputation report it
emits for one announcing peer given the verification result. -/
def on_handle_statement_import (who : PeerId) (importResult : SubmitResult) :
    List Effect :=
  match importResult with
  | .new .high => [.report who rep.EXCELLENT_STATEMENT]
  | .new .low => [.report who rep.GOOD_STATEMENT]
  | .known => [.report who rep.ANY_STATEMENT_REFUND]
  | .knownExpired => []
  | .ignored => []
  | .bad _ => [.report who rep.BAD_STATEMENT]
  | .internalError _ => []

/-- The `for s in statements` loop body of `StatementHandler::on_statements`:
breaks when the number of in-flight futures exceeds the cap, inserts the hash
into the peer's known set, debits `ANY_STATEMENT`, and dispatches on the
`pending_statements_peers` entry exactly as the source's `match ... entry`. -/
def onStatementsLoop (cfg : Config) (who : PeerId) :
    List Statement → HandlerState → HandlerState × List Effect
  | [], st => (st, [])
  | s :: rest, st =>
    if cfg.maxPendingStatements < st.pending_statements.length then
      -- `break`: ignore any further statements of this batch (log only)
      (st, [])
    else
      let h := s.hash
      let st1 : HandlerState :=
        { st with
          peers := alistUpdate
            (fun p => { p with known_statements := (p.known_statements.insert h).2 })
            st.peers who }
      match alistGet st1.pending_statements_peers h with
      | none =>
        match st1.queue.trySend s with
        | .ok q2 =>
          let st2 : HandlerState :=
            { st1 with
              queue := q2
              pending_statements := st1.pending_statements ++ [h]
              pending_statements_peers :=
                alistInsert st1.pending_statements_peers h [who] }
          let r := onStatementsLoop cfg who rest st2
          (r.1, .report who rep.ANY_STATEMENT :: r.2)
        | .full =>
          -- dropped because the validation channel is full (log only)
          let r := onStatementsLoop cfg who rest st1
          (r.1, .report who rep.ANY_STATEMENT :: r.2)
        | .closed =>
          -- dropped because the validation channel is closed (log only)
          let r := onStatementsLoop cfg who rest st1
          (r.1, .report who rep.ANY_STATEMENT :: r.2)
      | some peersSet =>
        let ins := peerSetInsert peersSet who
        if ins.1 then
          let st2 : HandlerState :=
            { st1 with
              pending_statements_peers :=
                alistInsert st1.pending_statements_peers h ins.2 }
          let r := onStatementsLoop cfg who rest st2
          (r.1, .report who rep.ANY_STATEMENT :: r.2)
        else
          -- already received this from the same peer
          let r := onStatementsLoop cfg who rest st1
          (r.1, .report who rep.ANY_STATEMENT ::
                  .report who rep.DUPLICATE_STATEMENT :: r.2)

/-- `StatementHandler::on_statements`: a no-op unless the sending peer has a
record in `peers`. -/
def on_statements (cfg : Config) (st : HandlerState) (who : PeerId)
    (statements : List Statement) : HandlerState × List Effect :=
  match alistGet st.peers who with
  | some _ => onStatementsLoop cfg who statements st
  | none => (st, [])

/-- The verification-completion arm of `StatementHandler::run`'s select loop:
`pending_statements_peers.remove(&hash)`; on a hit, settle every announcing
peer when a result is present; on a miss, log a warning and keep running. -/
def on_verification_complete (st : HandlerState) (h : Hash)
    (result : Option SubmitResult) : HandlerState × List Effect :=
  match alistGet st.pending_statements_peers h with
  | some peersSet =>
    let st1 : HandlerState :=
      { st with
        pending_statements_peers := alistRemove st.pending_statements_peers h }
    match result with
    | some r => (st1, peersSet.flatMap (fun p => on_handle_statement_import p r))
    | none => (st1, [])
  | none => (st, [.logWarnInconsistentState])

/-- The `to_send` filter of `do_propagate_statements` for a single peer:
`statements.iter().filter_map(|(hash, stmt)|
peer.known_statements.insert(*hash).then(|| stmt))`, threading the LRU set
through the batch. -/
def toSendFold (known : LruHashSet) :
    List (Hash × Statement) → LruHashSet × List Statement
  | [] => (known, [])
  | (h, stmt) :: rest =>
    let ins := known.insert h
    let r := toSendFold ins.2 rest
    if ins.1 then (r.1, stmt :: r.2) else (r.1, r.2)

/-- The `for (who, peer) in self.peers.iter_mut()` loop of
`do_propagate_statements`: light peers are skipped; otherwise the newly-known
sublist is sent as one notification when non-empty. -/
def propagateOverPeers (batch : List (Hash × Statement)) :
    List (PeerId × Peer) → List (PeerId × Peer) × List Effect
  | [] => ([], [])
  | (who, p) :: rest =>
    if p.role = ObservedRole.light then
      -- never send statements to light nodes
      let r := propagateOverPeers batch rest
      ((who, p) :: r.1, r.2)
    else
      let f := toSendFold p.known_statements batch
      let p2 : Peer := { p with known_statements := f.1 }
      let r := propagateOverPeers batch rest
      ((who, p2) :: r.1,
        if f.2.isEmpty then r.2 else .sendNotificationTo who f.2 :: r.2)

/-- `StatementHandler::do_propagate_statements` (the metrics counter is not
modelled; it only mirrors the lengths of the emitted notifications). -/
def do_propagate_statements (st : HandlerState)
    (batch : List (Hash × Statement)) : HandlerState × List Effect :=
  let r := propagateOverPeers batch st.peers
  ({ st with peers := r.1 }, r.2)

/-- `StatementHandler::propagate_statement`.  The store lookup
`statement_store.statement(hash)` returns `Result<Option<Statement>>`; a
lookup error and a missing statement both lead to no propagation, so the
store is modelled as `Hash → Option Statement`. -/
def propagate_statement (store_statement : Hash → Option Statement)
    (st : HandlerState) (h : Hash) : HandlerState × List Effect :=
  if st.isMajorSyncing then (st, [])
  else
    match store_statement h with
    | some stmt => do_propagate_statements st [(h, stmt)]
    | none => (st, [])

/-- `StatementHandler::propagate_statements`.  `statement_store.statements()`
returns `Result<Vec<(Hash, Statement)>>`; the `Err` case (no propagation) is
modelled as `none`. -/
def propagate_statements (store_statements : Option (List (Hash × Statement)))
    (st : HandlerState) : HandlerState × List Effect :=
  if st.isMajorSyncing then (st, [])
  else
    match store_statements with
    | some batch => do_propagate_statements st batch
    | none => (st, [])

/-- `StatementHandler::handle_notification_event`.  `peerRole` models
`network.peer_role(peer, handshake)`; `decode` models
`<Statements as Decode>::decode` on the notification bytes. -/
def handle_notification_event (cfg : Config)
    (peerRole : PeerId → List Nat → Option ObservedRole)
    (decode : List Nat → Option (List Statement))
    (st : HandlerState) (event : NotificationEvent) :
    HandlerState × List Effect :=
  match event with
  | .validateInboundSubstream peer handshake =>
    -- only accept peers whose role can be determined
    match peerRole peer handshake with
    | none => (st, [.replyValidation .reject])
    | some _ => (st, [.replyValidation .accept])
  | .notificationStreamOpened peer handshake =>
    match peerRole peer handshake with
    | none => (st, [])
    | some role =>
      ({ st with
         peers := alistInsert st.peers peer
           ⟨LruHashSet.new cfg.maxKnownStatements, role⟩ }, [])
  | .notificationStreamClosed peer =>
    ({ st with peers := alistRemove st.peers peer }, [])
  | .notificationReceived peer notification =>
    -- accept statements only when the node is not major syncing
    if st.isMajorSyncing then (st, [])
    else
      match decode notification with
      | some statements => on_statements cfg st peer statements
      | none => (st, [])

/-- Lower-case hex digit of a nibble (`format \x7b:02x\x7d` digits). -/
def hexDigit (n : Nat) : Char :=
  if n < 10 then Char.ofNat (48 + n) else Char.ofNat (87 + n)

/-- `array_bytes::bytes2hex("", bytes)`: lower-case hex, two digits per
byte, no prefix. -/
def bytes2hex (bytes : List (Fin 256)) : String :=
  String.mk (bytes.flatMap (fun b => [hexDigit (b.val / 16), hexDigit (b.val % 16)]))

/-- The protocol name computed by `StatementHandlerPrototype::new`:
`format!("/\x7b\x7d/\x7b\x7d/statement/1", bytes2hex, fork_id)` when a fork id
is given, `format!("/\x7b\x7d/statement/1", bytes2hex)` otherwise. -/
def protocol_name (genesis_hash : List (Fin 256)) (fork_id : Option String) :
    String :=
  match fork_id with
  | some fid => "/" ++ bytes2hex genesis_hash ++ "/" ++ fid ++ "/statement/1"
  | none => "/" ++ bytes2hex genesis_hash ++ "/statement/1"

/-- The protocol name as the spec words it:
`"/" + hex(genesis_hash) + ("/" + fork_id)? + "/statement/1"`. -/
def protocol_name_spec (genesis_hash : List (Fin 256))
    (fork_id : Option String) : String :=
  "/" ++ bytes2hex genesis_hash ++
    (match fork_id with | some fid => "/" ++ fid | none => "") ++ "/statement/1"

/-! ## Association-list lemmas -/

theorem alistGet_eq_none_of_not_mem_keys {α β : Type} [DecidableEq α]
    (m : List (α × β)) (a : α) (h : a ∉ m.map Prod.fst) : alistGet m a = none := by
  induction m with
  | nil => rfl
  | cons kv rest ih =>
    obtain ⟨k, v⟩ := kv
    simp only [List.map_cons, List.mem_cons] at h
    push_neg at h
    have hk : ¬ k = a := fun hc => h.1 hc.symm
    simp [alistGet, hk, ih h.2]

theorem alistGet_insert {α β : Type} [DecidableEq α] (m : List (α × β))
    (a x : α) (b : β) :
    alistGet (alistInsert m a b) x = if a = x then some b else alistGet m x := by
  induction m with
  | nil => simp [alistInsert, alistGet]
  | cons kv rest ih =>
    obtain ⟨k, v⟩ := kv
    simp only [alistInsert]
    by_cases hk : k = a
    · subst hk
      by_cases hx : k = x <;> simp [alistGet, hx]
    · simp only [if_neg hk]
      by_cases hx : k = x
      · subst hx
        have hax : ¬ a = k := fun h => hk h.symm
        simp [alistGet, hax]
      · simp [alistGet, hx, ih]

theorem alistGet_remove_self {α β : Type} [DecidableEq α] (m : List (α × β))
    (a : α) (hkeys : (m.map Prod.fst).Nodup) :
    alistGet (alistRemove m a) a = none := by
  induction m with
  | nil => rfl
  | cons kv rest ih =>
    obtain ⟨k, v⟩ := kv
    simp only [List.map_cons, List.nodup_cons] at hkeys
    by_cases hk : k = a
    · subst hk
      simpa [alistRemove] using
        alistGet_eq_none_of_not_mem_keys rest k hkeys.1
    · simp [alistRemove, alistGet, hk, ih hkeys.2]

theorem alistGet_of_mem_nodup {α β : Type} [DecidableEq α] (m : List (α × β))
    (a : α) (b : β) (hmem : (a, b) ∈ m) (hkeys : (m.map Prod.fst).Nodup) :
    alistGet m a = some b := by
  induction m with
  | nil => cases hmem
  | cons kv rest ih =>
    obtain ⟨k, v⟩ := kv
    simp only [List.map_cons, List.nodup_cons] at hkeys
    rcases List.mem_cons.mp hmem with heq | htail
    · cases heq
      simp [alistGet]
    · have hk : k ≠ a := by
        rintro rfl
        exact hkeys.1 (List.mem_map.mpr ⟨(k, b), htail, rfl⟩)
      simp [alistGet, hk, ih htail hkeys.2]

/-! ## Claim C2: reputation settlement on verification completion -/

/-- C2: for every verification completion with result `Some(r)`, the
settlement `on_handle_statement_import` applies to each announcing peer is
exactly +256 for `New(High)`, +128 for `New(Low)`, +16 for `Known`, −4096 for
`Bad(_)`, and no report at all for `KnownExpired`, `Ignored` and
`InternalError(_)`. -/
theorem c2_import_settlement (who : PeerId) (r1 r2 : Nat) :
    on_handle_statement_import who (.new .high) =
      [.report who ⟨256, "High priority statement"⟩]
    ∧ on_handle_statement_import who (.new .low) =
      [.report who ⟨128, "Good statement"⟩]
    ∧ on_handle_statement_import who .known =
      [.report who ⟨16, "Any statement (refund)"⟩]
    ∧ on_handle_statement_import who .knownExpired = []
    ∧ on_handle_statement_import who .ignored = []
    ∧ on_handle_statement_import who (.bad r1) =
      [.report who ⟨-4096, "Bad statement"⟩]
    ∧ on_handle_statement_import who (.internalError r2) = [] :=
  ⟨rfl, rfl, rfl, rfl, rfl, rfl, rfl⟩

/-! ## Claim C3: quiescence while major syncing -/

/-- C3: whenever `is_major_syncing()` is true, a `NotificationReceived` event
is dropped with no effect and no state change — for every decode function, so
in particular before any decoding — and `propagate_statements` and
`propagate_statement` return without any outbound notification and without
touching the state. -/
theorem c3_major_sync_quiescence (cfg : Config)
    (peerRole : PeerId → List Nat → Option ObservedRole)
    (decode : List Nat → Option (List Statement))
    (store_one : Hash → Option Statement)
    (store_all : Option (List (Hash × Statement)))
    (st : HandlerState) (peer : PeerId) (notification : List Nat) (h : Hash)
    (hsync : st.isMajorSyncing = true) :
    handle_notification_event cfg peerRole decode st
        (.notificationReceived peer notification) = (st, [])
    ∧ propagate_statements store_all st = (st, [])
    ∧ propagate_statement store_one st h = (st, []) := by
  refine ⟨?_, ?_, ?_⟩ <;>
    simp [handle_notification_event, propagate_statements, propagate_statement,
      hsync]

/-- Witness for C3 at a concrete syncing state. -/
theorem c3_major_sync_quiescence_witness :
    handle_notification_event ⟨8192, 1024⟩ (fun _ _ => none) (fun _ => none)
        ⟨[], [], [], ⟨[], 100000, false⟩, true⟩ (.notificationReceived 0 [1, 2]) =
      (⟨[], [], [], ⟨[], 100000, false⟩, true⟩, [])
    ∧ propagate_statements (some [(5, ⟨5, 0⟩)])
        ⟨[], [], [], ⟨[], 100000, false⟩, true⟩ =
      (⟨[], [], [], ⟨[], 100000, false⟩, true⟩, [])
    ∧ propagate_statement (fun _ => none)
        ⟨[], [], [], ⟨[], 100000, false⟩, true⟩ 5 =
      (⟨[], [], [], ⟨[], 100000, false⟩, true⟩, []) :=
  c3_major_sync_quiescence ⟨8192, 1024⟩ (fun _ _ => none) (fun _ => none)
    (fun _ => none) (some [(5, ⟨5, 0⟩)])
    ⟨[], [], [], ⟨[], 100000, false⟩, true⟩ 0 [1, 2] 5 rfl

/-! ## Claim C9: protocol name derivation -/

/-- C9: `StatementHandlerPrototype::new` derives the protocol name as
`"/" + hex(genesis_hash) + "/statement/1"` when no fork id is given and
`"/" + hex(genesis_hash) + "/" + fork_id + "/statement/1"` when one is given,
i.e. the source construction agrees with the spec formula
`"/" + hex(genesis_hash) + ("/" + fork_id)? + "/statement/1"` for every
genesis hash and optional fork id. -/
theorem c9_protocol_name_matches_spec (genesis_hash : List (Fin 256))
    (fork_id : Option String) :
    protocol_name genesis_hash fork_id = protocol_name_spec genesis_hash fork_id := by
  cases fork_id with
  | none =>
    simp [protocol_name, protocol_name_spec, String.append_empty]
  | some fid =>
    simp [protocol_name, protocol_name_spec, String.append_assoc]

/-! ## Claim C10: statements from an unrecorded peer are a no-op -/

/-- C10: for every peer with no record in the peers map, `on_statements` is a
complete no-op for any statement list — the state is returned unchanged and
no effect (no report, no enqueue, no map change) is produced. -/
theorem c10_unknown_peer_noop (cfg : Config) (st : HandlerState) (who : PeerId)
    (statements : List Statement) (hnone : alistGet st.peers who = none) :
    on_statements cfg st who statements = (st, []) := by
  simp [on_statements, hnone]

/-- Witness for C10: a peer with no record sends two statements into an
otherwise non-trivial state and nothing happens. -/
theorem c10_unknown_peer_noop_witness :
    on_statements ⟨8192, 1024⟩
        ⟨[(1, ⟨⟨[7], 1024⟩, .full⟩)], [9], [(9, [1])], ⟨[], 100000, false⟩, false⟩
        2 [⟨3, 0⟩, ⟨4, 0⟩] =
      (⟨[(1, ⟨⟨[7], 1024⟩, .full⟩)], [9], [(9, [1])], ⟨[], 100000, false⟩, false⟩, []) :=
  c10_unknown_peer_noop ⟨8192, 1024⟩
    ⟨[(1, ⟨⟨[7], 1024⟩, .full⟩)], [9], [(9, [1])], ⟨[], 100000, false⟩, false⟩
    2 [⟨3, 0⟩, ⟨4, 0⟩] rfl

/-! ## Claim C8: verification completion handling -/

/-- C8: when a verification completion `(hash, result)` fires, the
`pending_statements_peers` entry for the hash is gone afterwards in every
case; if the result is `none` no reputation report is emitted for any peer;
and if no entry exists for the hash the handler merely logs a warning,
leaving the state unchanged (the engine keeps running). -/
theorem c8_completion_removes_entry (st : HandlerState) (h : Hash)
    (result : Option SubmitResult)
    (hkeys : (st.pending_statements_peers.map Prod.fst).Nodup) :
    alistGet (on_verification_complete st h result).1.pending_statements_peers h = none
    ∧ (result = none → ∀ p r,
        Effect.report p r ∉ (on_verification_complete st h result).2)
    ∧ (alistGet st.pending_statements_peers h = none →
        (on_verification_complete st h result).1 = st
        ∧ (on_verification_complete st h result).2 = [.logWarnInconsistentState]) := by
  cases hm : alistGet st.pending_statements_peers h with
  | none =>
    refine ⟨?_, ?_, ?_⟩
    · simp [on_verification_complete, hm]
    · intro _ p r
      simp [on_verification_complete, hm]
    · intro _
      constructor <;> simp [on_verification_complete, hm]
  | some peersSet =>
    refine ⟨?_, ?_, ?_⟩
    · cases result <;>
        simp [on_verification_complete, hm, alistGet_remove_self _ _ hkeys]
    · rintro rfl p r
      simp [on_verification_complete, hm]
    · intro hnone
      simp [hm] at hnone

/-- Witness for C8 at a concrete state holding one pending entry. -/
theorem c8_completion_removes_entry_witness :
    alistGet (on_verification_complete
        ⟨[], [5], [(5, [1, 2])], ⟨[], 100000, false⟩, false⟩ 5
        none).1.pending_statements_peers 5 = none
    ∧ ((none : Option SubmitResult) = none → ∀ p r,
        Effect.report p r ∉ (on_verification_complete
          ⟨[], [5], [(5, [1, 2])], ⟨[], 100000, false⟩, false⟩ 5 none).2)
    ∧ (alistGet ([(5, [1, 2])] : List (Hash × List PeerId)) 5 = none →
        (on_verification_complete
          ⟨[], [5], [(5, [1, 2])], ⟨[], 100000, false⟩, false⟩ 5 none).1 =
          ⟨[], [5], [(5, [1, 2])], ⟨[], 100000, false⟩, false⟩
        ∧ (on_verification_complete
          ⟨[], [5], [(5, [1, 2])], ⟨[], 100000, false⟩, false⟩ 5 none).2 =
          [.logWarnInconsistentState]) :=
  c8_completion_removes_entry
    ⟨[], [5], [(5, [1, 2])], ⟨[], 100000, false⟩, false⟩ 5 none (by decide)

/-! ## Claim C4: first announcement with a failed queue send -/

/-- C4: when `on_statements` handles a first announcement of a hash (no
pending entry exists) and the send into the bounded validation channel fails
because the channel is full or closed, the statement is dropped: no pending
entry is created, no completion future is spawned, the queue is unchanged,
and the only reputation effect is the `ANY_STATEMENT` debit (−16), which is
not refunded. -/
theorem c4_queue_send_failure (cfg : Config) (st : HandlerState) (who : PeerId)
    (p : Peer) (s : Statement)
    (hpeer : alistGet st.peers who = some p)
    (hadm : st.pending_statements.length ≤ cfg.maxPendingStatements)
    (hfresh : alistGet st.pending_statements_peers s.hash = none)
    (hfail : st.queue.closed = true ∨ st.queue.capacity ≤ st.queue.queued.length) :
    (on_statements cfg st who [s]).2 = [.report who rep.ANY_STATEMENT]
    ∧ (on_statements cfg st who [s]).1.pending_statements_peers =
        st.pending_statements_peers
    ∧ (on_statements cfg st who [s]).1.pending_statements = st.pending_statements
    ∧ (on_statements cfg st who [s]).1.queue = st.queue := by
  have hnotlt : ¬ cfg.maxPendingStatements < st.pending_statements.length :=
    Nat.not_lt.mpr hadm
  rcases hfail with hc | hf
  · simp [on_statements, hpeer, onStatementsLoop, hnotlt, hfresh,
      ValidationQueue.trySend, hc]
  · cases hc : st.queue.closed
    · simp [on_statements, hpeer, onStatementsLoop, hnotlt, hfresh,
        ValidationQueue.trySend, hc, hf]
    · simp [on_statements, hpeer, onStatementsLoop, hnotlt, hfresh,
        ValidationQueue.trySend, hc]

/-- Witness for C4: the validation channel is closed, so the single fresh
statement only costs the peer the `ANY_STATEMENT` debit. -/
theorem c4_queue_send_failure_witness :
    (on_statements ⟨8192, 1024⟩
        ⟨[(0, ⟨⟨[], 1024⟩, .full⟩)], [], [], ⟨[], 100000, true⟩, false⟩
        0 [⟨3, 0⟩]).2 = [.report 0 rep.ANY_STATEMENT]
    ∧ (on_statements ⟨8192, 1024⟩
        ⟨[(0, ⟨⟨[], 1024⟩, .full⟩)], [], [], ⟨[], 100000, true⟩, false⟩
        0 [⟨3, 0⟩]).1.pending_statements_peers = []
    ∧ (on_statements ⟨8192, 1024⟩
        ⟨[(0, ⟨⟨[], 1024⟩, .full⟩)], [], [], ⟨[], 100000, true⟩, false⟩
        0 [⟨3, 0⟩]).1.pending_statements = []
    ∧ (on_statements ⟨8192, 1024⟩
        ⟨[(0, ⟨⟨[], 1024⟩, .full⟩)], [], [], ⟨[], 100000, true⟩, false⟩
        0 [⟨3, 0⟩]).1.queue = ⟨[], 100000, true⟩ :=
  c4_queue_send_failure ⟨8192, 1024⟩
    ⟨[(0, ⟨⟨[], 1024⟩, .full⟩)], [], [], ⟨[], 100000, true⟩, false⟩
    0 ⟨⟨[], 1024⟩, .full⟩ ⟨3, 0⟩ rfl (by decide) rfl (Or.inl rfl)

/-! ## Claim C5: repeated announcements of a pending hash -/

/-- C5: if a connected peer announces a hash whose verification is pending
and the peer is already in the entry's set, it receives exactly the
`ANY_STATEMENT` debit plus one `DUPLICATE_STATEMENT` report, and nothing is
enqueued (queue, in-flight futures and pending map all unchanged); if a
different peer announces the pending hash, only the `ANY_STATEMENT` debit is
emitted and the peer is merely added to the entry's set, again with no second
enqueue. -/
theorem c5_pending_hash_announcements (cfg : Config) (st : HandlerState)
    (who : PeerId) (p : Peer) (s : Statement) (peersSet : List PeerId)
    (hpeer : alistGet st.peers who = some p)
    (hadm : st.pending_statements.length ≤ cfg.maxPendingStatements)
    (hpend : alistGet st.pending_statements_peers s.hash = some peersSet) :
    (who ∈ peersSet →
      (on_statements cfg st who [s]).2 =
        [.report who rep.ANY_STATEMENT, .report who rep.DUPLICATE_STATEMENT]
      ∧ (on_statements cfg st who [s]).1.pending_statements = st.pending_statements
      ∧ (on_statements cfg st who [s]).1.queue = st.queue
      ∧ (on_statements cfg st who [s]).1.pending_statements_peers =
          st.pending_statements_peers)
    ∧ (who ∉ peersSet →
      (on_statements cfg st who [s]).2 = [.report who rep.ANY_STATEMENT]
      ∧ (on_statements cfg st who [s]).1.pending_statements = st.pending_statements
      ∧ (on_statements cfg st who [s]).1.queue = st.queue
      ∧ (on_statements cfg st who [s]).1.pending_statements_peers =
          alistInsert st.pending_statements_peers s.hash (peersSet ++ [who])) := by
  have hnotlt : ¬ cfg.maxPendingStatements < st.pending_statements.length :=
    Nat.not_lt.mpr hadm
  constructor
  · intro hmem
    simp [on_statements, hpeer, onStatementsLoop, hnotlt, hpend,
      peerSetInsert, hmem]
  · intro hmem
    simp [on_statements, hpeer, onStatementsLoop, hnotlt, hpend,
      peerSetInsert, hmem]

/-- Witness for C5: hash 3 is pending with announcers `[0]`; peer 0 is the
duplicate announcer and peer 1 the additional one. -/
theorem c5_pending_hash_announcements_witness :
    ((0 : PeerId) ∈ [(0 : PeerId)] →
      (on_statements ⟨8192, 1024⟩
          ⟨[(0, ⟨⟨[3], 1024⟩, .full⟩)], [3], [(3, [0])], ⟨[⟨3, 0⟩], 100000, false⟩, false⟩
          0 [⟨3, 0⟩]).2 =
        [.report 0 rep.ANY_STATEMENT, .report 0 rep.DUPLICATE_STATEMENT]
      ∧ (on_statements ⟨8192, 1024⟩
          ⟨[(0, ⟨⟨[3], 1024⟩, .full⟩)], [3], [(3, [0])], ⟨[⟨3, 0⟩], 100000, false⟩, false⟩
          0 [⟨3, 0⟩]).1.pending_statements = [3]
      ∧ (on_statements ⟨8192, 1024⟩
          ⟨[(0, ⟨⟨[3], 1024⟩, .full⟩)], [3], [(3, [0])], ⟨[⟨3, 0⟩], 100000, false⟩, false⟩
          0 [⟨3, 0⟩]).1.queue = ⟨[⟨3, 0⟩], 100000, false⟩
      ∧ (on_statements ⟨8192, 1024⟩
          ⟨[(0, ⟨⟨[3], 1024⟩, .full⟩)], [3], [(3, [0])], ⟨[⟨3, 0⟩], 100000, false⟩, false⟩
          0 [⟨3, 0⟩]).1.pending_statements_peers = [(3, [0])])
    ∧ ((0 : PeerId) ∉ [(0 : PeerId)] →
      (on_statements ⟨8192, 1024⟩
          ⟨[(0, ⟨⟨[3], 1024⟩, .full⟩)], [3], [(3, [0])], ⟨[⟨3, 0⟩], 100000, false⟩, false⟩
          0 [⟨3, 0⟩]).2 = [.report 0 rep.ANY_STATEMENT]
      ∧ (on_statements ⟨8192, 1024⟩
          ⟨[(0, ⟨⟨[3], 1024⟩, .full⟩)], [3], [(3, [0])], ⟨[⟨3, 0⟩], 100000, false⟩, false⟩
          0 [⟨3, 0⟩]).1.pending_statements = [3]
      ∧ (on_statements ⟨8192, 1024⟩
          ⟨[(0, ⟨⟨[3], 1024⟩, .full⟩)], [3], [(3, [0])], ⟨[⟨3, 0⟩], 100000, false⟩, false⟩
          0 [⟨3, 0⟩]).1.queue = ⟨[⟨3, 0⟩], 100000, false⟩
      ∧ (on_statements ⟨8192, 1024⟩
          ⟨[(0, ⟨⟨[3], 1024⟩, .full⟩)], [3], [(3, [0])], ⟨[⟨3, 0⟩], 100000, false⟩, false⟩
          0 [⟨3, 0⟩]).1.pending_statements_peers =
          alistInsert [(3, [0])] 3 ([0] ++ [0])) :=
  c5_pending_hash_announcements ⟨8192, 1024⟩
    ⟨[(0, ⟨⟨[3], 1024⟩, .full⟩)], [3], [(3, [0])], ⟨[⟨3, 0⟩], 100000, false⟩, false⟩
    0 ⟨⟨[3], 1024⟩, .full⟩ ⟨3, 0⟩ [0] rfl (by decide) rfl

/-! ## Claim C1: the in-flight verification cap -/

/-- Over a batch of statements with pairwise-distinct hashes, none of them
already pending, and with room for the whole batch in the validation channel,
the statements loop admits exactly the first
`maxPendingStatements + 1 - |in-flight|` statements: each admission costs one
`ANY_STATEMENT` debit and pushes one verification future, and every later
statement of the batch is dropped. -/
theorem onStatementsLoop_fresh_batch (cfg : Config) (who : PeerId)
    (batch : List Statement) (st : HandlerState)
    (hfresh : ∀ s ∈ batch, alistGet st.pending_statements_peers s.hash = none)
    (hnodup : (batch.map Statement.hash).Nodup)
    (hopen : st.queue.closed = false)
    (hcap : st.queue.queued.length + batch.length ≤ st.queue.capacity) :
    (onStatementsLoop cfg who batch st).2 =
      (batch.take (cfg.maxPendingStatements + 1 - st.pending_statements.length)).map
        (fun _ => Effect.report who rep.ANY_STATEMENT)
    ∧ (onStatementsLoop cfg who batch st).1.pending_statements =
      st.pending_statements ++
        (batch.take (cfg.maxPendingStatements + 1 - st.pending_statements.length)).map
          Statement.hash := by
  induction batch generalizing st with
  | nil => simp [onStatementsLoop]
  | cons s rest ih =>
    by_cases hlt : cfg.maxPendingStatements < st.pending_statements.length
    · have hz : cfg.maxPendingStatements + 1 - st.pending_statements.length = 0 :=
        Nat.sub_eq_zero_of_le hlt
      simp [onStatementsLoop, hlt, hz]
    · push_neg at hlt
      have hnl : ¬ cfg.maxPendingStatements < st.pending_statements.length :=
        Nat.not_lt.mpr hlt
      have hfs : alistGet st.pending_statements_peers s.hash = none :=
        hfresh s (List.mem_cons_self s rest)
      simp only [List.map_cons, List.nodup_cons] at hnodup
      simp only [List.length_cons] at hcap
      have hroom : ¬ st.queue.capacity ≤ st.queue.queued.length := by omega
      have hts : ValidationQueue.trySend st.queue s =
          .ok ⟨st.queue.queued ++ [s], st.queue.capacity, st.queue.closed⟩ := by
        simp [ValidationQueue.trySend, hopen, hroom]
      have hfresh2 : ∀ s2 ∈ rest,
          alistGet (alistInsert st.pending_statements_peers s.hash [who]) s2.hash =
            none := by
        intro s2 hs2
        have hne : ¬ s.hash = s2.hash := by
          intro he
          have : s.hash ∈ rest.map Statement.hash := by
            rw [he]
            exact List.mem_map.mpr ⟨s2, hs2, rfl⟩
          exact hnodup.1 this
        simpa [alistGet_insert, hne] using
          hfresh s2 (List.mem_cons_of_mem _ hs2)
      have hcap2 : (st.queue.queued ++ [s]).length + rest.length ≤
          st.queue.capacity := by
        simp only [List.length_append, List.length_cons, List.length_nil]
        omega
      obtain ⟨ih1, ih2⟩ :=
        ih ⟨alistUpdate
              (fun p =>
                { p with known_statements := (p.known_statements.insert s.hash).2 })
              st.peers who,
            st.pending_statements ++ [s.hash],
            alistInsert st.pending_statements_peers s.hash [who],
            ⟨st.queue.queued ++ [s], st.queue.capacity, st.queue.closed⟩,
            st.isMajorSyncing⟩
          hfresh2 hnodup.2 hopen hcap2
      have hsub : cfg.maxPendingStatements + 1 - st.pending_statements.length =
          (cfg.maxPendingStatements - st.pending_statements.length) + 1 := by
        omega
      have hsub2 : cfg.maxPendingStatements + 1 - (st.pending_statements.length + 1) =
          cfg.maxPendingStatements - st.pending_statements.length := by
        omega
      simp only [List.length_append, List.length_cons, List.length_nil,
        Nat.zero_add] at ih1 ih2
      constructor
      · simp only [onStatementsLoop, hnl, if_false, hfs, hts]
        simp only [ih1, hsub, hsub2, List.take_succ_cons, List.map_cons]
      · simp only [onStatementsLoop, hnl, if_false, hfs, hts]
        simp only [ih2, hsub, hsub2, List.take_succ_cons, List.map_cons,
          List.append_assoc, List.cons_append, List.nil_append]

/-- C1, amended: the cap check of `on_statements` is strict
(`pending_statements.len() > MAX_PENDING_STATEMENTS`), so starting from zero
in-flight futures the first `MAX_PENDING_STATEMENTS + 1` statements of a
fresh, distinct batch are all admitted (each with at most
`MAX_PENDING_STATEMENTS` futures in flight at its admission), and the
`(MAX_PENDING_STATEMENTS + 2)`-th statement is the first one dropped, with no
later statement of the batch processed. -/
theorem c1_amended_batch_cutoff (cfg : Config) (st : HandlerState)
    (who : PeerId) (p : Peer) (batch : List Statement)
    (hpeer : alistGet st.peers who = some p)
    (hzero : st.pending_statements = [])
    (hfresh : ∀ s ∈ batch, alistGet st.pending_statements_peers s.hash = none)
    (hnodup : (batch.map Statement.hash).Nodup)
    (hopen : st.queue.closed = false)
    (hcap : st.queue.queued.length + batch.length ≤ st.queue.capacity) :
    (on_statements cfg st who batch).2 =
      (batch.take (cfg.maxPendingStatements + 1)).map
        (fun _ => Effect.report who rep.ANY_STATEMENT)
    ∧ (on_statements cfg st who batch).1.pending_statements =
      (batch.take (cfg.maxPendingStatements + 1)).map Statement.hash := by
  have h := onStatementsLoop_fresh_batch cfg who batch st hfresh hnodup hopen hcap
  rw [hzero] at h
  simpa [on_statements, hpeer] using h

/-- Counterexample to C1 as stated: with `MAX_PENDING_STATEMENTS = 1` and a
batch of three fresh, distinct statements from a connected peer starting with
zero in-flight futures, the claim predicts that the 2nd statement (the
`MAX_PENDING_STATEMENTS + 1`-th) is dropped; in fact it is admitted — its
verification future is pushed (`pending_statements = [1, 2]`), a pending
entry is created for its hash, and it is debited — and only the 3rd statement
is dropped. -/
theorem c1_counterexample_cap_plus_first_admitted :
    (on_statements ⟨1, 8⟩
        ⟨[(0, ⟨⟨[], 8⟩, .full⟩)], [], [], ⟨[], 100000, false⟩, false⟩ 0
        [⟨1, 0⟩, ⟨2, 0⟩, ⟨3, 0⟩]).1.pending_statements = [1, 2]
    ∧ alistGet (on_statements ⟨1, 8⟩
        ⟨[(0, ⟨⟨[], 8⟩, .full⟩)], [], [], ⟨[], 100000, false⟩, false⟩ 0
        [⟨1, 0⟩, ⟨2, 0⟩, ⟨3, 0⟩]).1.pending_statements_peers 2 = some [0]
    ∧ (on_statements ⟨1, 8⟩
        ⟨[(0, ⟨⟨[], 8⟩, .full⟩)], [], [], ⟨[], 100000, false⟩, false⟩ 0
        [⟨1, 0⟩, ⟨2, 0⟩, ⟨3, 0⟩]).2 =
      [.report 0 rep.ANY_STATEMENT, .report 0 rep.ANY_STATEMENT] := by
  refine ⟨?_, ?_, ?_⟩ <;> decide

/-- Witness for the amended C1 at `MAX_PENDING_STATEMENTS = 1` with a batch
of four fresh statements: exactly the first two are admitted. -/
theorem c1_amended_batch_cutoff_witness :
    (on_statements ⟨1, 8⟩
        ⟨[(0, ⟨⟨[], 8⟩, .full⟩)], [], [], ⟨[], 100000, false⟩, false⟩ 0
        [⟨4, 0⟩, ⟨5, 0⟩, ⟨6, 0⟩, ⟨7, 0⟩]).2 =
      ([(⟨4, 0⟩ : Statement), ⟨5, 0⟩, ⟨6, 0⟩, ⟨7, 0⟩].take (1 + 1)).map
        (fun _ => Effect.report 0 rep.ANY_STATEMENT)
    ∧ (on_statements ⟨1, 8⟩
        ⟨[(0, ⟨⟨[], 8⟩, .full⟩)], [], [], ⟨[], 100000, false⟩, false⟩ 0
        [⟨4, 0⟩, ⟨5, 0⟩, ⟨6, 0⟩, ⟨7, 0⟩]).1.pending_statements =
      ([(⟨4, 0⟩ : Statement), ⟨5, 0⟩, ⟨6, 0⟩, ⟨7, 0⟩].take (1 + 1)).map
        Statement.hash :=
  c1_amended_batch_cutoff ⟨1, 8⟩
    ⟨[(0, ⟨⟨[], 8⟩, .full⟩)], [], [], ⟨[], 100000, false⟩, false⟩ 0
    ⟨⟨[], 8⟩, .full⟩ [⟨4, 0⟩, ⟨5, 0⟩, ⟨6, 0⟩, ⟨7, 0⟩] rfl rfl
    (by decide) (by decide) rfl (by decide)

/-! ## Propagation lemmas -/

theorem lruInsert_of_mem (s : LruHashSet) (h : Hash) (hmem : h ∈ s.elems) :
    s.insert h = (false, s) := by
  simp [LruHashSet.insert, hmem]

theorem mem_drop_append_last (l : List Hash) (a : Hash) (n : Nat)
    (hn : n ≤ l.length) : a ∈ (l ++ [a]).drop n := by
  induction l generalizing n with
  | nil =>
    simp only [List.length_nil, Nat.le_zero] at hn
    subst hn
    simp
  | cons x xs ihl =>
    cases n with
    | zero => simp
    | succ m =>
      simp only [List.cons_append, List.drop_succ_cons]
      exact ihl m (by simpa using hn)

theorem mem_lruInsert_self (s : LruHashSet) (h : Hash) (hlim : 0 < s.limit) :
    h ∈ (s.insert h).2.elems := by
  by_cases hm : h ∈ s.elems
  · simp [LruHashSet.insert, hm]
  · simp only [LruHashSet.insert, hm, if_false]
    split
    · exact mem_drop_append_last s.elems h _
        (by simp only [List.length_append, List.length_cons, List.length_nil]; omega)
    · simp

theorem toSendFold_single (known : LruHashSet) (h : Hash) (stmt : Statement) :
    toSendFold known [(h, stmt)] =
      ((known.insert h).2, if (known.insert h).1 then [stmt] else []) := by
  by_cases hik : (known.insert h).1 <;> simp [toSendFold, hik]

/-- Every outbound notification produced by the propagation loop comes from a
non-light peer record in the table, carries exactly that peer's newly-known
sublist of the batch, and is non-empty. -/
theorem propagateOverPeers_send_mem (batch : List (Hash × Statement))
    (peers : List (PeerId × Peer)) (who : PeerId) (l : List Statement)
    (hmem : Effect.sendNotificationTo who l ∈ (propagateOverPeers batch peers).2) :
    ∃ p', (who, p') ∈ peers ∧ ¬ p'.role = ObservedRole.light ∧
      (toSendFold p'.known_statements batch).2 = l ∧ l ≠ [] := by
  induction peers with
  | nil => simp [propagateOverPeers] at hmem
  | cons q rest ih =>
    obtain ⟨w, p⟩ := q
    by_cases hrole : p.role = ObservedRole.light
    · simp only [propagateOverPeers, hrole, if_true, reduceIte] at hmem
      obtain ⟨p', hp1, hp2, hp3, hp4⟩ := ih hmem
      exact ⟨p', List.mem_cons_of_mem _ hp1, hp2, hp3, hp4⟩
    · simp only [propagateOverPeers, hrole, reduceIte] at hmem
      by_cases hemp : (toSendFold p.known_statements batch).2.isEmpty
      · rw [if_pos hemp] at hmem
        obtain ⟨p', hp1, hp2, hp3, hp4⟩ := ih hmem
        exact ⟨p', List.mem_cons_of_mem _ hp1, hp2, hp3, hp4⟩
      · rw [if_neg hemp] at hmem
        rcases List.mem_cons.mp hmem with heq | htail
        · obtain ⟨hw, hl⟩ := Effect.sendNotificationTo.inj heq.symm
          subst hw
          refine ⟨p, List.mem_cons_self _ _, hrole, hl, ?_⟩
          rw [← hl]
          intro hcon
          rw [hcon] at hemp
          exact hemp rfl
        · obtain ⟨p', hp1, hp2, hp3, hp4⟩ := ih htail
          exact ⟨p', List.mem_cons_of_mem _ hp1, hp2, hp3, hp4⟩

/-- The propagation loop preserves a light peer's record unchanged. -/
theorem propagateOverPeers_light_get (batch : List (Hash × Statement))
    (peers : List (PeerId × Peer)) (who : PeerId) (p : Peer)
    (hpeer : alistGet peers who = some p) (hlight : p.role = ObservedRole.light) :
    alistGet (propagateOverPeers batch peers).1 who = some p := by
  induction peers with
  | nil => cases hpeer
  | cons q rest ih =>
    obtain ⟨k, v⟩ := q
    by_cases hk : k = who
    · subst hk
      simp only [alistGet, if_pos rfl] at hpeer
      obtain rfl : v = p := Option.some.inj hpeer
      simp [propagateOverPeers, hlight, alistGet]
    · simp only [alistGet, hk, if_false] at hpeer
      by_cases hrole : v.role = ObservedRole.light <;>
        simp [propagateOverPeers, hrole, alistGet, hk, ih hpeer]

/-- After one propagation of `(h, stmt)`, every peer record in the table is
either light or knows `h` (limits being positive). -/
theorem propagateOverPeers_single_marks_known (h : Hash) (stmt : Statement)
    (peers : List (PeerId × Peer))
    (hlim : ∀ q ∈ peers, 0 < (Prod.snd q).known_statements.limit) :
    ∀ q ∈ (propagateOverPeers [(h, stmt)] peers).1,
      (Prod.snd q).role = ObservedRole.light ∨
        h ∈ (Prod.snd q).known_statements.elems := by
  induction peers with
  | nil => simp [propagateOverPeers]
  | cons q0 rest ih =>
    obtain ⟨w, p⟩ := q0
    have hlimtail : ∀ q ∈ rest, 0 < (Prod.snd q).known_statements.limit :=
      fun q hq => hlim q (List.mem_cons_of_mem _ hq)
    by_cases hrole : p.role = ObservedRole.light
    · intro q hq
      simp only [propagateOverPeers, hrole, reduceIte] at hq
      rcases List.mem_cons.mp hq with rfl | htail
      · exact Or.inl hrole
      · exact ih hlimtail q htail
    · intro q hq
      simp only [propagateOverPeers, hrole, reduceIte, toSendFold_single] at hq
      rcases List.mem_cons.mp hq with rfl | htail
      · refine Or.inr ?_
        exact mem_lruInsert_self p.known_statements h
          (hlim (w, p) (List.mem_cons_self _ _))
      · exact ih hlimtail q htail

/-- If every peer is light or already knows `h`, propagating `(h, stmt)`
produces no notification at all. -/
theorem propagateOverPeers_single_known_no_sends (h : Hash) (stmt : Statement)
    (peers : List (PeerId × Peer))
    (hall : ∀ q ∈ peers, (Prod.snd q).role = ObservedRole.light ∨
      h ∈ (Prod.snd q).known_statements.elems) :
    (propagateOverPeers [(h, stmt)] peers).2 = [] := by
  induction peers with
  | nil => rfl
  | cons q0 rest ih =>
    obtain ⟨w, p⟩ := q0
    have halltail : ∀ q ∈ rest, (Prod.snd q).role = ObservedRole.light ∨
        h ∈ (Prod.snd q).known_statements.elems :=
      fun q hq => hall q (List.mem_cons_of_mem _ hq)
    by_cases hrole : p.role = ObservedRole.light
    · simp [propagateOverPeers, hrole, ih halltail]
    · have hmem : h ∈ p.known_statements.elems :=
        (hall (w, p) (List.mem_cons_self _ _)).resolve_left hrole
      simp [propagateOverPeers, hrole, toSendFold_single,
        lruInsert_of_mem p.known_statements h hmem, ih halltail]

/-! ## Claim C6: known statements are not re-sent -/

/-- C6: if `h` is in a peer's `known_statements`, `do_propagate_statements`
on the batch `[(h, stmt)]` sends nothing to that peer; and calling
`propagate_statement h` twice in a row (the peer set unchanged in between,
all LRU capacities positive) produces no notification at all on the second
call. -/
theorem c6_known_statement_not_resent (st : HandlerState) (who : PeerId)
    (p : Peer) (h : Hash) (stmt : Statement)
    (store_one : Hash → Option Statement)
    (hpeer : alistGet st.peers who = some p)
    (hkeys : (st.peers.map Prod.fst).Nodup)
    (hknown : h ∈ p.known_statements.elems)
    (hlim : ∀ q ∈ st.peers, 0 < (Prod.snd q).known_statements.limit) :
    (do_propagate_statements st [(h, stmt)]).2.any (sendsTo who) = false
    ∧ (propagate_statement store_one (propagate_statement store_one st h).1 h).2 = [] := by
  constructor
  · rw [List.any_eq_false]
    intro e he
    cases e with
    | sendNotificationTo w l =>
      simp only [sendsTo, beq_iff_eq, decide_eq_true_eq]
      rintro rfl
      simp only [do_propagate_statements] at he
      obtain ⟨p', hp1, hp2, hp3, hp4⟩ :=
        propagateOverPeers_send_mem [(h, stmt)] st.peers w l he
      have hpp : p' = p :=
        Option.some.inj ((alistGet_of_mem_nodup st.peers w p' hp1 hkeys).symm.trans hpeer)
      have hnil : l = [] := by
        rw [← hp3, hpp, toSendFold_single,
          lruInsert_of_mem p.known_statements h hknown]
        simp
      exact hp4 hnil
    | report w c => simp [sendsTo]
    | replyValidation r => simp [sendsTo]
    | logWarnInconsistentState => simp [sendsTo]
  · by_cases hsync : st.isMajorSyncing
    · simp [propagate_statement, hsync]
    · cases hst : store_one h with
      | none => simp [propagate_statement, hsync, hst]
      | some s0 =>
        have hmarks := propagateOverPeers_single_marks_known h s0 st.peers hlim
        simp only [propagate_statement, hsync, hst, do_propagate_statements,
          reduceIte]
        exact propagateOverPeers_single_known_no_sends h s0 _ hmarks

/-- Witness for C6: peer 0 already knows hash 7 and is not sent it again;
the double propagation of hash 7 emits nothing the second time. -/
theorem c6_known_statement_not_resent_witness :
    (do_propagate_statements
        ⟨[(0, ⟨⟨[7], 4⟩, .full⟩), (1, ⟨⟨[], 4⟩, .light⟩)], [], [],
          ⟨[], 100000, false⟩, false⟩ [(7, ⟨7, 0⟩)]).2.any (sendsTo 0) = false
    ∧ (propagate_statement (fun x => if x = 7 then some ⟨7, 0⟩ else none)
        (propagate_statement (fun x => if x = 7 then some ⟨7, 0⟩ else none)
          ⟨[(0, ⟨⟨[7], 4⟩, .full⟩), (1, ⟨⟨[], 4⟩, .light⟩)], [], [],
            ⟨[], 100000, false⟩, false⟩ 7).1 7).2 = [] :=
  c6_known_statement_not_resent
    ⟨[(0, ⟨⟨[7], 4⟩, .full⟩), (1, ⟨⟨[], 4⟩, .light⟩)], [], [],
      ⟨[], 100000, false⟩, false⟩ 0 ⟨⟨[7], 4⟩, .full⟩ 7 ⟨7, 0⟩
    (fun x => if x = 7 then some ⟨7, 0⟩ else none) rfl (by decide) (by decide)
    (by decide)

/-! ## Claim C7: light peers are skipped -/

/-- C7: for every batch and every peer whose role is `Light`,
`do_propagate_statements` sends no notification to that peer and leaves its
record — in particular its `known_statements` set — unchanged. -/
theorem c7_light_peer_untouched (st : HandlerState)
    (batch : List (Hash × Statement)) (who : PeerId) (p : Peer)
    (hpeer : alistGet st.peers who = some p)
    (hkeys : (st.peers.map Prod.fst).Nodup)
    (hlight : p.role = ObservedRole.light) :
    (do_propagate_statements st batch).2.any (sendsTo who) = false
    ∧ alistGet (do_propagate_statements st batch).1.peers who = some p := by
  constructor
  · rw [List.any_eq_false]
    intro e he
    cases e with
    | sendNotificationTo w l =>
      simp only [sendsTo, beq_iff_eq, decide_eq_true_eq]
      rintro rfl
      simp only [do_propagate_statements] at he
      obtain ⟨p', hp1, hp2, _, _⟩ :=
        propagateOverPeers_send_mem batch st.peers w l he
      have : p' = p :=
        Option.some.inj ((alistGet_of_mem_nodup st.peers w p' hp1 hkeys).symm.trans hpeer)
      subst this
      exact hp2 hlight
    | report w c => simp [sendsTo]
    | replyValidation r => simp [sendsTo]
    | logWarnInconsistentState => simp [sendsTo]
  · simpa [do_propagate_statements] using
      propagateOverPeers_light_get batch st.peers who p hpeer hlight

/-- Witness for C7: the light peer 1 receives nothing and keeps its record
while the full peer 0 is updated. -/
theorem c7_light_peer_untouched_witness :
    (do_propagate_statements
        ⟨[(0, ⟨⟨[], 4⟩, .full⟩), (1, ⟨⟨[], 4⟩, .light⟩)], [], [],
          ⟨[], 100000, false⟩, false⟩ [(7, ⟨7, 0⟩)]).2.any (sendsTo 1) = false
    ∧ alistGet (do_propagate_statements
        ⟨[(0, ⟨⟨[], 4⟩, .full⟩), (1, ⟨⟨[], 4⟩, .light⟩)], [], [],
          ⟨[], 100000, false⟩, false⟩ [(7, ⟨7, 0⟩)]).1.peers 1 =
      some ⟨⟨[], 4⟩, .light⟩ :=
  c7_light_peer_untouched
    ⟨[(0, ⟨⟨[], 4⟩, .full⟩), (1, ⟨⟨[], 4⟩, .light⟩)], [], [],
      ⟨[], 100000, false⟩, false⟩ [(7, ⟨7, 0⟩)] 1 ⟨⟨[], 4⟩, .light⟩
    rfl (by decide) rfl

end StatementGossip
